import Mathlib

/-!
Shallow embedding of the trend-detection core of the `trand` repository
(backend/app): the unified `Video` record, the deduplicator, the age-aware
soft filter, the viral pipeline orchestrator, the quality gate, and the
worker's persistence mapping and source attribution.

Conventions of the embedding:
* Python floats are modelled as exact rationals (`ℚ`); counters are `ℕ`.
* Wall-clock time is passed explicitly: `now` and `publish_time` are UTC
  timestamps in seconds, modelled as `ℚ`.
* Python's stable `list.sort(key=..., reverse=True)` is modelled by the
  stable insertion sort `sortDesc` (any two stable sorts by the same key
  agree, so this is extensionally the Timsort the source uses).
* Network / LLM calls (the pluggable AI quality classifier of
  `viral_quality_filter.py`) and the transcendental log-based scorer
  (`viral_scoring.compute_viral_score`) enter the pipeline as function
  parameters `aiKeep : Video → Bool` and `scoreFn : Video → ViralScoreBreakdown`;
  the claims under study quantify over them.
* Diagnostic strings (log messages, the `reason` field of the filter result)
  are omitted; no claim mentions them.
-/

namespace Trand

/-- The unified cross-platform video record (`app/models/video_model.py`).
`raw_payload`, `author_id`, `author_name`, `thumbnail_url` are opaque
diagnostics and omitted. -/
structure Video where
  platform : String
  video_id : String
  url : String := ""
  author_followers : ℕ := 0
  views : ℕ := 0
  likes : ℕ := 0
  comments : ℕ := 0
  shares : ℕ := 0
  publish_time : Option ℚ := none
  duration : ℕ := 0
  title : String := ""
  description : String := ""
  hashtags : List String := []
  sound_id : String := ""
  comments_disabled : Bool := false
deriving Repr, DecidableEq

/-! Stable descending sort: model of Python's stable `sort(reverse=True)`. -/

/-- Insert `a` into a descending-sorted list, before the first element whose
key is ≤ the key of `a` (this is the stable position for an element that
originally came before every element of the list). -/
def insertDesc (key : α → ℚ) (a : α) : List α → List α
  | [] => [a]
  | b :: bs => if key b ≤ key a then a :: b :: bs else b :: insertDesc key a bs

/-- Stable sort, descending by `key`. -/
def sortDesc (key : α → ℚ) : List α → List α
  | [] => []
  | a :: as => insertDesc key a (sortDesc key as)

theorem length_insertDesc (key : α → ℚ) (a : α) (l : List α) :
    (insertDesc key a l).length = l.length + 1 := by
  induction l with
  | nil => rfl
  | cons b bs ih =>
    simp only [insertDesc]
    split
    · simp
    · simp [ih]

theorem length_sortDesc (key : α → ℚ) (l : List α) :
    (sortDesc key l).length = l.length := by
  induction l with
  | nil => rfl
  | cons a as ih => simp [sortDesc, length_insertDesc, ih]

theorem perm_insertDesc (key : α → ℚ) (a : α) (l : List α) :
    (insertDesc key a l).Perm (a :: l) := by
  induction l with
  | nil => rfl
  | cons b bs ih =>
    simp only [insertDesc]
    split
    · rfl
    · exact (List.Perm.cons b ih).trans (List.Perm.swap a b bs)

theorem perm_sortDesc (key : α → ℚ) (l : List α) :
    (sortDesc key l).Perm l := by
  induction l with
  | nil => rfl
  | cons a as ih =>
    exact (perm_insertDesc key a (sortDesc key as)).trans (List.Perm.cons a ih)

/-! Deduplicator (`app/services/deduplicator.py`). -/

namespace Deduplicator

/-- The lowercase whitespace-split word set of a string:
`set(s.lower().split())`. Python's argument-less `split` drops empty
pieces between consecutive whitespace characters. -/
def wordSet (s : String) : List String :=
  ((s.toLower.split Char.isWhitespace).filter (fun w => w ≠ "")).dedup

/-- Decides `_cosine_similarity a b ≥ n / d` exactly, for a positive
threshold `n / d`.  The source computes `|A∩B| / sqrt(|A|·|B|)` on the word
sets (`0.0` when either input or either word set is empty) and compares with
`>=`; squaring both sides of the comparison removes the square root without
changing the verdict. -/
def cosine_similarity_ge (a b : String) (n d : ℕ) : Bool :=
  if a = "" ∨ b = "" then false
  else
    let wa := wordSet a
    let wb := wordSet b
    if wa = [] ∨ wb = [] then false
    else decide (n ^ 2 * (wa.length * wb.length) ≤ d ^ 2 * ((wa.filter (fun w => wb.contains w)).length ^ 2))

/-- Function `_is_repost v existing` (`deduplicator.py` lines 68–79): same
`(platform, video_id)`, or a TikTok sound-id match, or title cosine ≥ 0.8,
or duration within ±2 seconds with title cosine ≥ 0.5. -/
def is_repost (v existing : Video) : Bool :=
  if v.platform = existing.platform ∧ v.video_id = existing.video_id then true
  else if v.sound_id ≠ "" ∧ v.sound_id = existing.sound_id ∧ v.platform = "tiktok" then true
  else if cosine_similarity_ge v.title existing.title 4 5 then true
  else if ((v.duration : ℤ) - (existing.duration : ℤ)).natAbs ≤ 2 ∧ cosine_similarity_ge v.title existing.title 1 2 then true
  else false

/-- The loop of `deduplicate` (`deduplicator.py` lines 38–62), with the
`seen_ids` / `seen_sounds` sets and the emitted `result` made explicit. -/
def dedupGo : List Video → List (String × String) → List (String × String) → List Video → List Video
  | [], _, _, result => result
  | v :: rest, seen_ids, seen_sounds, result =>
    if (v.platform, v.video_id) ∈ seen_ids then
      dedupGo rest seen_ids seen_sounds result
    else
      if v.sound_id ≠ "" ∧ v.platform = "tiktok" then
        if (v.platform, v.sound_id) ∈ seen_sounds then
          dedupGo rest ((v.platform, v.video_id) :: seen_ids) seen_sounds result
        else
          if result.any (fun r => is_repost v r) then
            dedupGo rest ((v.platform, v.video_id) :: seen_ids)
              ((v.platform, v.sound_id) :: seen_sounds) result
          else
            dedupGo rest ((v.platform, v.video_id) :: seen_ids)
              ((v.platform, v.sound_id) :: seen_sounds) (result ++ [v])
      else
        if result.any (fun r => is_repost v r) then
          dedupGo rest ((v.platform, v.video_id) :: seen_ids) seen_sounds result
        else
          dedupGo rest ((v.platform, v.video_id) :: seen_ids) seen_sounds (result ++ [v])

/-- Function `deduplicate` (`deduplicator.py` lines 27–65). -/
def deduplicate (videos : List Video) : List Video :=
  dedupGo videos [] [] []

theorem is_repost_of_key {a b : Video} (h1 : a.platform = b.platform)
    (h2 : a.video_id = b.video_id) : is_repost a b = true := by
  simp only [is_repost]
  rw [if_pos ⟨h1, h2⟩]

theorem is_repost_of_sound {a b : Video} (h1 : a.sound_id ≠ "")
    (h2 : a.sound_id = b.sound_id) (h3 : a.platform = "tiktok") :
    is_repost a b = true := by
  simp only [is_repost]
  split
  · rfl
  · rw [if_pos ⟨h1, h2, h3⟩]

theorem key_ne_of_not_repost {a b : Video} (h : is_repost a b = false) :
    (a.platform, a.video_id) ≠ (b.platform, b.video_id) := by
  intro he
  rw [is_repost_of_key (congrArg Prod.fst he) (congrArg Prod.snd he)] at h
  simp at h

theorem sound_ne_of_not_repost {a b : Video} (h : is_repost a b = false)
    (h1 : a.sound_id ≠ "") (h3 : a.platform = "tiktok") :
    (a.platform, a.sound_id) ≠ (b.platform, b.sound_id) := by
  intro he
  rw [is_repost_of_sound h1 (congrArg Prod.snd he) h3] at h
  simp at h

/-- The emitted list never relates a later element as a repost of an earlier
one: an element is appended only after the `_is_repost` scan over the
current `result` comes back clean. -/
theorem pairwise_dedupGo :
    ∀ (l : List Video) (ids sounds : List (String × String)) (res : List Video),
    res.Pairwise (fun a b => is_repost b a = false) →
    (dedupGo l ids sounds res).Pairwise (fun a b => is_repost b a = false) := by
  intro l
  induction l with
  | nil => intro ids sounds res h; exact h
  | cons v rest ih =>
    intro ids sounds res h
    have happ : ∀ hany : res.any (fun r => is_repost v r) = false,
        (res ++ [v]).Pairwise (fun a b => is_repost b a = false) := by
      intro hany
      refine List.pairwise_append.mpr ⟨h, List.pairwise_singleton _ _, ?_⟩
      intro a ha b hb
      rw [List.mem_singleton] at hb
      subst hb
      simpa using List.any_eq_false.mp hany a ha
    simp only [dedupGo]
    split
    · exact ih _ _ _ h
    · split
      · split
        · exact ih _ _ _ h
        · split
          · next hany => exact ih _ _ _ h
          · next hany =>
            exact ih _ _ _ (happ (Bool.not_eq_true _ ▸ Bool.of_not_eq_true hany))
      · split
        · next hany => exact ih _ _ _ h
        · next hany =>
          exact ih _ _ _ (happ (Bool.not_eq_true _ ▸ Bool.of_not_eq_true hany))

/-- When the incoming suffix already passes every check against the
accumulated state, the loop appends it unchanged. -/
theorem dedupGo_fixpoint :
    ∀ (l : List Video) (ids sounds : List (String × String)) (res : List Video),
    (res ++ l).Pairwise (fun a b => is_repost b a = false) →
    (∀ v ∈ l, (v.platform, v.video_id) ∉ ids) →
    (∀ v ∈ l, v.sound_id ≠ "" → v.platform = "tiktok" → (v.platform, v.sound_id) ∉ sounds) →
    dedupGo l ids sounds res = res ++ l := by
  intro l
  induction l with
  | nil => intro ids sounds res _ _ _; simp [dedupGo]
  | cons v rest ih =>
    intro ids sounds res hpw hids hsounds
    obtain ⟨hres, hcons, hcross⟩ := List.pairwise_append.mp hpw
    obtain ⟨hvrest, hrest⟩ := List.pairwise_cons.mp hcons
    have hany : res.any (fun r => is_repost v r) = false :=
      List.any_eq_false.mpr
        (fun a ha => by simpa using hcross a ha v (List.mem_cons_self v rest))
    have hpw' : ((res ++ [v]) ++ rest).Pairwise (fun a b => is_repost b a = false) := by
      rw [List.append_assoc, List.singleton_append]
      exact hpw
    have hids' : ∀ w ∈ rest, (w.platform, w.video_id) ∉ (v.platform, v.video_id) :: ids := by
      intro w hw
      rw [List.mem_cons]
      rintro (he | he)
      · exact key_ne_of_not_repost (hvrest w hw) he
      · exact hids w (List.mem_cons_of_mem v hw) he
    have hids'' : ∀ w ∈ rest, (w.platform, w.video_id) ∉ ids :=
      fun w hw => hids w (List.mem_cons_of_mem v hw)
    have hsounds'' : ∀ w ∈ rest, w.sound_id ≠ "" → w.platform = "tiktok" →
        (w.platform, w.sound_id) ∉ sounds :=
      fun w hw h1 h2 => hsounds w (List.mem_cons_of_mem v hw) h1 h2
    have hstep : ∀ (ids' sounds' : List (String × String)),
        (∀ w ∈ rest, (w.platform, w.video_id) ∉ ids') →
        (∀ w ∈ rest, w.sound_id ≠ "" → w.platform = "tiktok" →
          (w.platform, w.sound_id) ∉ sounds') →
        dedupGo rest ids' sounds' (res ++ [v]) = res ++ v :: rest := by
      intro ids' sounds' hi hs
      rw [ih ids' sounds' (res ++ [v]) hpw' hi hs, List.append_assoc, List.singleton_append]
    simp only [dedupGo]
    rw [if_neg (hids v (List.mem_cons_self v rest))]
    split
    · next hvsound =>
      rw [if_neg (hsounds v (List.mem_cons_self v rest) hvsound.1 hvsound.2)]
      rw [hany]
      simp only [Bool.false_eq_true, if_false]
      refine hstep _ _ hids' ?_
      intro w hw h1 h2
      rw [List.mem_cons]
      rintro (he | he)
      · exact sound_ne_of_not_repost (hvrest w hw) h1 h2 he
      · exact hsounds'' w hw h1 h2 he
    · rw [hany]
      simp only [Bool.false_eq_true, if_false]
      exact hstep _ _ hids' hsounds''

/-- C6: `deduplicate` is idempotent. -/
theorem deduplicate_idempotent (xs : List Video) :
    deduplicate (deduplicate xs) = deduplicate xs := by
  have hpw : (deduplicate xs).Pairwise (fun a b => is_repost b a = false) :=
    pairwise_dedupGo xs [] [] [] (List.Pairwise.nil)
  have := dedupGo_fixpoint (deduplicate xs) [] [] []
    (by simpa using hpw)
    (by intro v _ h; exact (List.not_mem_nil _ h))
    (by intro v _ _ _ h; exact (List.not_mem_nil _ h))
  simpa [deduplicate] using this

/-- The loop only ever appends incoming elements to the accumulator. -/
theorem dedupGo_sublist :
    ∀ (l : List Video) (ids sounds : List (String × String)) (res : List Video),
    ∃ extra, dedupGo l ids sounds res = res ++ extra ∧ extra.Sublist l := by
  intro l
  induction l with
  | nil => intro ids sounds res; exact ⟨[], by simp [dedupGo], List.Sublist.refl []⟩
  | cons v rest ih =>
    intro ids sounds res
    simp only [dedupGo]
    split
    · obtain ⟨e, he, hs⟩ := ih _ _ res
      exact ⟨e, he, hs.cons v⟩
    · split
      · split
        · obtain ⟨e, he, hs⟩ := ih _ _ res
          exact ⟨e, he, hs.cons v⟩
        · split
          · obtain ⟨e, he, hs⟩ := ih _ _ res
            exact ⟨e, he, hs.cons v⟩
          · obtain ⟨e, he, hs⟩ := ih _ _ (res ++ [v])
            exact ⟨v :: e, by rw [he, List.append_assoc, List.singleton_append],
              hs.cons₂ v⟩
      · split
        · obtain ⟨e, he, hs⟩ := ih _ _ res
          exact ⟨e, he, hs.cons v⟩
        · obtain ⟨e, he, hs⟩ := ih _ _ (res ++ [v])
          exact ⟨v :: e, by rw [he, List.append_assoc, List.singleton_append],
            hs.cons₂ v⟩

/-- Every video the loop emits (beyond the accumulator it started from) is
the first occurrence of its `(platform, video_id)` key in the incoming list,
and its key was not yet in `seen_ids`. -/
theorem mem_dedupGo :
    ∀ (l : List Video) (ids sounds : List (String × String)) (res : List Video)
      (w : Video), w ∈ dedupGo l ids sounds res →
    w ∈ res ∨ ((w.platform, w.video_id) ∉ ids ∧
      l.find? (fun x => x.platform == w.platform && x.video_id == w.video_id) = some w) := by
  intro l
  induction l with
  | nil => intro ids sounds res w hw; exact Or.inl hw
  | cons v rest ih =>
    intro ids sounds res w hw
    have hfind : ∀ (ids' : List (String × String)),
        (v.platform, v.video_id) ∈ ids' →
        (w.platform, w.video_id) ∉ ids' →
        rest.find? (fun x => x.platform == w.platform && x.video_id == w.video_id) = some w →
        (v :: rest).find? (fun x => x.platform == w.platform && x.video_id == w.video_id) = some w := by
      intro ids' hv hnw hf
      rw [List.find?_cons_of_neg, hf]
      simp only [Bool.and_eq_true, beq_iff_eq, not_and]
      intro h1 h2
      exact hnw (by rw [← h1, ← h2]; exact hv)
    simp only [dedupGo] at hw
    split at hw
    · next hin =>
      rcases ih _ _ _ _ hw with h | ⟨hnw, hf⟩
      · exact Or.inl h
      · exact Or.inr ⟨hnw, hfind ids hin hnw hf⟩
    · next hnin =>
      have hstep : ∀ (sounds' : List (String × String)) (res' : List Video),
          w ∈ dedupGo rest ((v.platform, v.video_id) :: ids) sounds' res' →
          (w ∈ res' ∨ ((w.platform, w.video_id) ∉ ids ∧
            (v :: rest).find? (fun x => x.platform == w.platform && x.video_id == w.video_id) = some w)) := by
        intro sounds' res' hw'
        rcases ih _ _ _ _ hw' with h | ⟨hnw, hf⟩
        · exact Or.inl h
        · refine Or.inr ⟨fun hc => hnw (List.mem_cons_of_mem _ hc), ?_⟩
          exact hfind ((v.platform, v.video_id) :: ids)
            (List.mem_cons_self _ _) hnw hf
      split at hw
      · split at hw
        · exact hstep _ _ hw
        · split at hw
          · exact hstep _ _ hw
          · rcases hstep _ _ hw with h | h
            · rcases List.mem_append.mp h with h' | h'
              · exact Or.inl h'
              · rw [List.mem_singleton] at h'
                subst h'
                exact Or.inr ⟨hnin, by rw [List.find?_cons_of_pos]; simp⟩
            · exact Or.inr h
      · split at hw
        · exact hstep _ _ hw
        · rcases hstep _ _ hw with h | h
          · rcases List.mem_append.mp h with h' | h'
            · exact Or.inl h'
            · rw [List.mem_singleton] at h'
              subst h'
              exact Or.inr ⟨hnin, by rw [List.find?_cons_of_pos]; simp⟩
          · exact Or.inr h

/-- C7: the output of `deduplicate` is an order-preserving subsequence of
the input, has pairwise distinct `(platform, video_id)` keys, and each kept
video is the first occurrence of its key in the input. -/
theorem deduplicate_subsequence_unique (xs : List Video) :
    (deduplicate xs).Sublist xs ∧
    (deduplicate xs).Pairwise
      (fun a b => (a.platform, a.video_id) ≠ (b.platform, b.video_id)) ∧
    ∀ w ∈ deduplicate xs,
      xs.find? (fun x => x.platform == w.platform && x.video_id == w.video_id) = some w := by
  refine ⟨?_, ?_, ?_⟩
  · obtain ⟨e, he, hs⟩ := dedupGo_sublist xs [] [] []
    simpa [deduplicate, he] using hs
  · have := pairwise_dedupGo xs [] [] [] List.Pairwise.nil
    exact this.imp (fun h => fun he => key_ne_of_not_repost h he.symm)
  · intro w hw
    rcases mem_dedupGo xs [] [] [] w hw with h | ⟨_, hf⟩
    · exact absurd h (List.not_mem_nil w)
    · exact hf

/-- A video that occurs twice in the C7 witness input. -/
def dupVid : Video := { platform := "tiktok", video_id := "d1" }

/-- Witness for C7 at a concrete input: the deduplicated list is a
subsequence of the input, and the kept copy is the first occurrence. -/
theorem deduplicate_subsequence_unique_witness :
    (deduplicate [dupVid, dupVid]).Sublist [dupVid, dupVid] ∧
    [dupVid, dupVid].find?
      (fun x => x.platform == dupVid.platform && x.video_id == dupVid.video_id) =
        some dupVid := by
  refine ⟨(deduplicate_subsequence_unique [dupVid, dupVid]).1, ?_⟩
  exact (deduplicate_subsequence_unique [dupVid, dupVid]).2.2 dupVid (by decide)

end Deduplicator

/-! Age-aware soft filter (`app/services/viral_filters.py`,
configuration from `app/config/viral_config.py`) -/

namespace ViralFilters

/-- Configuration `AgeAwareFilterConfig` (`viral_config.py` lines 11–65) with its default
values. -/
structure AgeAwareFilterConfig where
  min_penalty_to_keep : ℚ := 1/4
  early_age_hours : ℚ := 2
  early_age_min_views : ℕ := 30
  t1_hours : ℚ := 1
  t1_views : ℕ := 50
  t1_likes : ℕ := 5
  t1_vph : ℚ := 10
  t1_engagement : ℚ := 1/100
  t6_hours : ℚ := 6
  t6_views : ℕ := 300
  t6_likes : ℕ := 20
  t6_vph : ℚ := 25
  t6_engagement : ℚ := 2/100
  t24_hours : ℚ := 24
  t24_views : ℕ := 1000
  t24_likes : ℕ := 60
  t24_vph : ℚ := 40
  t24_engagement : ℚ := 25/1000
  t72_hours : ℚ := 72
  t72_views : ℕ := 4000
  t72_likes : ℕ := 200
  t72_vph : ℚ := 60
  t72_engagement : ℚ := 3/100
  else_views : ℕ := 10000
  else_likes : ℕ := 400
  else_vph : ℚ := 80
  else_engagement : ℚ := 35/1000
  penalty_views : ℚ := 7/10
  penalty_likes : ℚ := 7/10
  penalty_vph : ℚ := 6/10
  penalty_engagement : ℚ := 6/10
  max_duration_seconds : ℕ := 120
  penalty_duration : ℚ := 1/2
  penalty_comments_disabled : ℚ := 1/2
  min_candidates : ℕ := 40

def AGE_AWARE_FILTER : AgeAwareFilterConfig := {}

/-- Function `_hours_since` (`viral_filters.py` lines 26–32): 24 h when the
publish time is unknown, otherwise the UTC age in hours floored at 0.1. -/
def hours_since (now : ℚ) (publish_time : Option ℚ) : ℚ :=
  match publish_time with
  | none => 24
  | some t => max ((now - t) / 3600) (1/10)

/-- Function `_engagement_rate` (`viral_filters.py` lines 35–38): weighted
`(likes + 2·comments + 3·shares) / max(views, 1)`. -/
def engagement_rate (v : Video) : ℚ :=
  ((v.likes + v.comments * 2 + v.shares * 3 : ℕ) : ℚ) / ((max v.views 1 : ℕ) : ℚ)

/-- Function `_get_dynamic_thresholds` (`viral_filters.py` lines 41–52):
`(min_views, min_likes, min_vph, min_engagement)` for the age bucket. -/
def get_dynamic_thresholds (hours : ℚ) : ℕ × ℕ × ℚ × ℚ :=
  let cfg := AGE_AWARE_FILTER
  if hours ≤ cfg.t1_hours then (cfg.t1_views, cfg.t1_likes, cfg.t1_vph, cfg.t1_engagement)
  else if hours ≤ cfg.t6_hours then (cfg.t6_views, cfg.t6_likes, cfg.t6_vph, cfg.t6_engagement)
  else if hours ≤ cfg.t24_hours then (cfg.t24_views, cfg.t24_likes, cfg.t24_vph, cfg.t24_engagement)
  else if hours ≤ cfg.t72_hours then (cfg.t72_views, cfg.t72_likes, cfg.t72_vph, cfg.t72_engagement)
  else (cfg.else_views, cfg.else_likes, cfg.else_vph, cfg.else_engagement)

/-- Result of the per-video filter; the diagnostic `reason` string is
omitted. -/
structure AgeAwareFilterResult where
  passed : Bool
  penalty : ℚ
deriving Repr, DecidableEq

/-- Function `age_aware_filter` (`viral_filters.py` lines 55–130): early-age
protection below 2 h, multiplicative penalties from the age bucket
thresholds, optional duration / comments-disabled penalties, pass iff the
penalty stays ≥ 0.25. -/
def age_aware_filter (now : ℚ) (v : Video) : AgeAwareFilterResult :=
  let cfg := AGE_AWARE_FILTER
  let hours := hours_since now v.publish_time
  let eng := engagement_rate v
  let vph := if hours > 0 then (v.views : ℚ) / hours else 0
  if hours < cfg.early_age_hours then
    if v.views ≥ cfg.early_age_min_views then ⟨true, 1⟩
    else ⟨true, 1 * cfg.penalty_views⟩
  else
    let t := get_dynamic_thresholds hours
    let penalty : ℚ := 1
    let penalty := if v.views < t.1 then penalty * cfg.penalty_views else penalty
    let penalty := if v.likes < t.2.1 then penalty * cfg.penalty_likes else penalty
    let penalty := if vph < t.2.2.1 then penalty * cfg.penalty_vph else penalty
    let penalty := if eng < t.2.2.2 then penalty * cfg.penalty_engagement else penalty
    let penalty := if v.duration > cfg.max_duration_seconds then penalty * cfg.penalty_duration else penalty
    let penalty := if v.comments_disabled then penalty * cfg.penalty_comments_disabled else penalty
    ⟨decide (penalty ≥ cfg.min_penalty_to_keep), penalty⟩

/-- Function `age_aware_filter_batch` (`viral_filters.py` lines 133–166): per-item
evaluation, then the batch safety floor that promotes the highest-penalty
rejected items when fewer than `min_keep` passed and the input has at least
`min_keep` items; the reported count is the pre-promotion rejected count. -/
def age_aware_filter_batch (now : ℚ) (videos : List Video) (min_keep : ℕ) :
    List (Video × ℚ) × ℕ :=
  let cfg := AGE_AWARE_FILTER
  let mk := max min_keep cfg.min_candidates
  let results := videos.map (fun v => (v, age_aware_filter now v))
  let passed := (results.filter (fun r => r.2.passed)).map (fun r => (r.1, r.2.penalty))
  let rejected := (results.filter (fun r => !r.2.passed)).map (fun r => (r.1, r.2.penalty))
  let originally_rejected := rejected.length
  if passed.length < mk ∧ videos.length ≥ mk then
    let sorted_rejected := sortDesc (fun x => x.2) rejected
    let needed := min (mk - passed.length) rejected.length
    (passed ++ sorted_rejected.take needed, originally_rejected)
  else
    (passed, originally_rejected)

theorem filter_partition_length (l : List α) (p : α → Bool) :
    (l.filter p).length + (l.filter (fun a => !p a)).length = l.length := by
  induction l with
  | nil => rfl
  | cons a as ih =>
    by_cases h : p a = true
    · simp [List.filter_cons, h, Nat.succ_add, ih]
    · rw [Bool.not_eq_true] at h
      simp [List.filter_cons, h, ← ih]
      omega

/-- C8: a video younger than 2 hours always passes, with penalty 1 when it
has at least 30 views and penalty 0.7 (only the low-views factor)
otherwise. -/
theorem age_aware_filter_early_age (now : ℚ) (v : Video)
    (h : hours_since now v.publish_time < 2) :
    (age_aware_filter now v).passed = true ∧
    (age_aware_filter now v).penalty = (if v.views ≥ 30 then 1 else 7/10) := by
  rw [age_aware_filter]
  simp only [AGE_AWARE_FILTER]
  rw [if_pos h]
  by_cases hv : v.views ≥ 30
  · rw [if_pos hv, if_pos hv]
    exact ⟨rfl, rfl⟩
  · rw [if_neg hv, if_neg hv]
    exact ⟨rfl, by norm_num⟩

/-- A one-hour-old video with 5 views, for the C8 witness. -/
def earlyLowViews : Video :=
  { platform := "tiktok", video_id := "w", views := 5, publish_time := some 0 }

/-- Witness for C8 at a concrete input: a 1-hour-old video with 5 views
passes with penalty 0.7. -/
theorem age_aware_filter_early_age_witness :
    (age_aware_filter 3600 earlyLowViews).passed = true ∧
    (age_aware_filter 3600 earlyLowViews).penalty =
      (if earlyLowViews.views ≥ 30 then 1 else 7/10) := by
  exact age_aware_filter_early_age 3600 earlyLowViews
    (by norm_num [hours_since, earlyLowViews])

/-- C5: with at least 40 input videos the batch filter keeps at least 40
candidates, and the reported rejected count is the number of videos that
failed the per-item filter (before any promotion). -/
theorem age_aware_filter_batch_floor (now : ℚ) (videos : List Video)
    (h : 40 ≤ videos.length) :
    40 ≤ (age_aware_filter_batch now videos 40).1.length ∧
    (age_aware_filter_batch now videos 40).2 =
      (videos.filter (fun v => !(age_aware_filter now v).passed)).length := by
  have hpartition :
      ((videos.map (fun v => (v, age_aware_filter now v))).filter (fun r => r.2.passed)).length +
      ((videos.map (fun v => (v, age_aware_filter now v))).filter (fun r => !r.2.passed)).length
        = videos.length := by
    rw [filter_partition_length]
    exact List.length_map videos _
  have hrejeq :
      ((videos.map (fun v => (v, age_aware_filter now v))).filter (fun r => !r.2.passed)).length
        = (videos.filter (fun v => !(age_aware_filter now v).passed)).length := by
    rw [List.filter_map, List.length_map]
    rfl
  constructor
  · rw [age_aware_filter_batch]
    simp only [AGE_AWARE_FILTER]
    split
    · next hcond =>
      simp only [List.length_append, List.length_map, List.length_take,
        length_sortDesc]
      simp only [List.length_map] at hcond ⊢
      omega
    · next hcond =>
      rw [not_and_or] at hcond
      rcases hcond with hc | hc
      · simp only [not_lt, Nat.max_self] at hc
        simpa using le_trans (by norm_num) hc
      · exact absurd (le_trans (by norm_num : (40 : ℕ) ≤ max 40 40) h) hc
  · rw [age_aware_filter_batch]
    simp only [AGE_AWARE_FILTER]
    split
    · simpa using hrejeq
    · simpa using hrejeq

/-- Witness for C5: forty copies of a hopeless video still yield forty
candidates, with all forty reported as rejected. -/
theorem age_aware_filter_batch_floor_witness :
    40 ≤ (age_aware_filter_batch 0
      (List.replicate 40 { platform := "tiktok", video_id := "z" }) 40).1.length ∧
    (age_aware_filter_batch 0
      (List.replicate 40 { platform := "tiktok", video_id := "z" }) 40).2 =
      ((List.replicate 40 ({ platform := "tiktok", video_id := "z" } : Video)).filter
        (fun v => !(age_aware_filter 0 v).passed)).length := by
  exact age_aware_filter_batch_floor 0 _ (by simp)

end ViralFilters

/-! Pipeline orchestrator (`app/services/viral_pipeline.py`).
The scorer (`compute_viral_score`, log-based real arithmetic) and the AI
quality classifier (`ai_quality_filter_batch`, an LLM call that filters the
list it is given) are the two external capabilities the orchestrator
composes; they enter as the parameters `scoreFn` and `aiKeep`, with
`ai_quality_filter_batch videos = videos.filter aiKeep`. -/

namespace ViralPipeline

/-- Record `ViralScoreBreakdown` (`viral_scoring.py` lines 46–55). -/
structure ViralScoreBreakdown where
  viral_score : ℚ
  velocity_norm : ℚ := 0
  interaction_norm : ℚ := 0
  discussion_norm : ℚ := 0
  keyword_match : ℚ := 0
  creator_multiplier : ℚ := 1
  freshness : ℚ := 1
  explanation : String := ""
deriving Repr, DecidableEq

/-- Record `PipelineResult` (`viral_pipeline.py` lines 21–27). -/
structure PipelineResult where
  videos : List (Video × ViralScoreBreakdown)
  total_input : ℕ
  after_filter : ℕ
  after_ai_filter : ℕ
  rejected_by_filter : ℕ
deriving Repr, DecidableEq

/-- Stage 1 of `run_viral_pipeline`: the age-aware filter with the batch
safety floor, `min_keep = AGE_AWARE_FILTER.min_candidates`. -/
def pipeline_candidates (now : ℚ) (videos : List Video) : List (Video × ℚ) :=
  (ViralFilters.age_aware_filter_batch now videos
    ViralFilters.AGE_AWARE_FILTER.min_candidates).1

/-- Stages 2–5 of `run_viral_pipeline` (lines 66–84): score every candidate,
multiply `viral_score` by the filter penalty keeping the other fields, and
sort descending by the penalized score. -/
def pipeline_sorted (now : ℚ) (scoreFn : Video → ViralScoreBreakdown)
    (videos : List Video) : List (Video × ViralScoreBreakdown) :=
  sortDesc (fun x => x.2.viral_score)
    ((pipeline_candidates now videos).map (fun c =>
      let b := scoreFn c.1
      (c.1, { b with viral_score := b.viral_score * c.2 })))

/-- Slice size `n_for_llm` (lines 87–91): `max(min_videos_for_llm = 5, int(n · 0.30))`. -/
def n_for_llm (n : ℕ) : ℕ :=
  max 5 (Int.toNat ((((n : ℚ)) * (3/10)).floor))

/-- The top slice handed to the AI quality filter (line 92). -/
def pipeline_top_slice (now : ℚ) (scoreFn : Video → ViralScoreBreakdown)
    (videos : List Video) : List (Video × ViralScoreBreakdown) :=
  (pipeline_sorted now scoreFn videos).take
    (n_for_llm (pipeline_sorted now scoreFn videos).length)

/-- The tail that bypasses the AI quality filter (line 93). -/
def pipeline_rest (now : ℚ) (scoreFn : Video → ViralScoreBreakdown)
    (videos : List Video) : List (Video × ViralScoreBreakdown) :=
  (pipeline_sorted now scoreFn videos).drop
    (n_for_llm (pipeline_sorted now scoreFn videos).length)

/-- Lines 95–102: run the classifier on the top-slice videos, collect the
kept `video_id`s into a set, and keep the scored pairs whose `video_id` is
in that set. -/
def pipeline_passed_scored (now : ℚ) (scoreFn : Video → ViralScoreBreakdown)
    (aiKeep : Video → Bool) (videos : List Video) :
    List (Video × ViralScoreBreakdown) :=
  let cand := pipeline_top_slice now scoreFn videos
  if cand.isEmpty then []
  else
    let passed_ids := ((cand.map Prod.fst).filter aiKeep).map Video.video_id
    cand.filter (fun vb => passed_ids.contains vb.1.video_id)

/-- Function `run_viral_pipeline` (`viral_pipeline.py` lines 30–114). -/
def run_viral_pipeline (now : ℚ) (scoreFn : Video → ViralScoreBreakdown)
    (aiKeep : Video → Bool) (videos : List Video) : PipelineResult :=
  if videos.isEmpty then
    { videos := [], total_input := 0, after_filter := 0, after_ai_filter := 0,
      rejected_by_filter := 0 }
  else
    { videos := sortDesc (fun x => x.2.viral_score)
        (pipeline_passed_scored now scoreFn aiKeep videos ++
          pipeline_rest now scoreFn videos)
      total_input := videos.length
      after_filter := (pipeline_candidates now videos).length
      after_ai_filter := (pipeline_passed_scored now scoreFn aiKeep videos).length
      rejected_by_filter := (ViralFilters.age_aware_filter_batch now videos
        ViralFilters.AGE_AWARE_FILTER.min_candidates).2 }

/-- A stale video with zero counters and unknown publish time: age defaults
to 24 h, it misses all four bucket thresholds, and its penalty
0.7 · 0.7 · 0.6 · 0.6 = 0.1764 falls below 0.25. -/
def staleZeroVideo : Video := { platform := "tiktok", video_id := "dead" }

/-- A constant scorer and a keep-everything classifier; neither is ever
consulted on the failing input below, because the candidate list is already
empty after the filter. -/
def constScoreFn : Video → ViralScoreBreakdown := fun _ => { viral_score := 1 }

def keepAll : Video → Bool := fun _ => true

unseal Rat.mul Rat.inv Rat.add Rat.sub in
/-- C1 (the code violates it): on the one-element input `[staleZeroVideo]`
the candidate list is empty — the video's age defaults to 24 h, it fails all
four bucket thresholds (penalty 0.1764 < 0.25), and the 40-item safety
floor does not engage because the input has fewer than 40 items — so the
pipeline returns an empty output for a non-empty input, contradicting the
module's own docstring ("never empty if input not empty").  The wall clock
is irrelevant (the video has no publish time) and the scorer and classifier
are never reached. -/
theorem pipeline_empty_on_nonempty_input :
    (run_viral_pipeline 0 constScoreFn keepAll [staleZeroVideo]).videos = [] ∧
    ([staleZeroVideo] : List Video) ≠ [] := by
  decide

/-- C10: the pipeline applies the classifier verdicts by `video_id` alone.
If the classifier keeps any top-slice video carrying a given `video_id`,
then every top-slice pair carrying that `video_id` survives into
`passed_scored`, platform notwithstanding. -/
theorem pipeline_ai_matches_by_video_id (now : ℚ)
    (scoreFn : Video → ViralScoreBreakdown) (aiKeep : Video → Bool)
    (videos : List Video) (vb : Video × ViralScoreBreakdown)
    (hmem : vb ∈ pipeline_top_slice now scoreFn videos)
    (w : Video) (hw : w ∈ (pipeline_top_slice now scoreFn videos).map Prod.fst)
    (hkeep : aiKeep w = true) (hid : w.video_id = vb.1.video_id) :
    vb ∈ pipeline_passed_scored now scoreFn aiKeep videos := by
  rw [pipeline_passed_scored]
  have hne : (pipeline_top_slice now scoreFn videos).isEmpty = false := by
    rw [List.isEmpty_eq_false]
    exact List.ne_nil_of_mem hmem
  rw [hne]
  simp only [Bool.false_eq_true, if_false]
  refine List.mem_filter.mpr ⟨hmem, ?_⟩
  have hwin : w ∈ ((pipeline_top_slice now scoreFn videos).map Prod.fst).filter aiKeep :=
    List.mem_filter.mpr ⟨hw, hkeep⟩
  have : vb.1.video_id ∈
      (((pipeline_top_slice now scoreFn videos).map Prod.fst).filter aiKeep).map Video.video_id := by
    rw [← hid]
    exact List.mem_map_of_mem Video.video_id hwin
  simpa using this

/-- Two strong 24-hour-old videos on different platforms sharing
`video_id = "A"`: the classifier keeps only the TikTok one, yet the Reels
pair also survives, for the C10 witness. -/
def crossTiktokA : Video :=
  { platform := "tiktok", video_id := "A", views := 100000, likes := 5000,
    comments := 500, shares := 100 }

def crossReelsA : Video :=
  { platform := "reels", video_id := "A", views := 100000, likes := 5000,
    comments := 500, shares := 100 }

def constantBreakdown : ViralScoreBreakdown := { viral_score := 1 }

unseal Rat.mul Rat.inv Rat.add Rat.sub in
/-- Witness for C10: with a classifier that keeps only TikTok videos, the
Reels pair with the same `video_id` is still kept. -/
theorem pipeline_ai_matches_by_video_id_witness :
    (crossReelsA, constantBreakdown) ∈
      pipeline_passed_scored 0 (fun _ => constantBreakdown)
        (fun w => w.platform == "tiktok") [crossTiktokA, crossReelsA] := by
  refine pipeline_ai_matches_by_video_id 0 (fun _ => constantBreakdown)
    (fun w => w.platform == "tiktok") [crossTiktokA, crossReelsA]
    (crossReelsA, constantBreakdown) (by decide) crossTiktokA (by decide)
    (by decide) (by decide)

end ViralPipeline

/-! Quality gate (`app/services/quality_gate.py`, configuration
`QualityGateConfig` and `OutputConfig` from `viral_config.py`). -/

namespace QualityGate

open ViralPipeline

/-- The decision reasons of `quality_gate.py` lines 18–24. -/
inductive DecisionReason where
  | accepted_high_quality
  | accepted_borderline_high_viral
  | accepted_borderline_engagement
  | fallback_fill
  | rejected_low_quality
deriving DecidableEq, Repr

/-- Record `GateResult` (`quality_gate.py` lines 27–33). -/
structure GateResult where
  video : Video
  breakdown : ViralScoreBreakdown
  quality_decision_reason : DecisionReason
deriving DecidableEq, Repr

/-- Function `_clamp` (`quality_gate.py` lines 36–37). -/
def clamp (value lo hi : ℚ) : ℚ := max lo (min hi value)

/-- Function `_engagement_rate` of the quality gate (`quality_gate.py` lines 40–42):
unweighted `(likes + comments + shares) / max(views, 1)` — unlike the
weighted rate of `viral_filters.py` / `viral_scoring.py`. -/
def gate_engagement_rate (v : Video) : ℚ :=
  ((v.likes + v.comments + v.shares : ℕ) : ℚ) / ((max v.views 1 : ℕ) : ℚ)

/-- Score `quality_score = clamp(viral_score · virality_scale, 0, 10)` with
`virality_scale = 2.5` (line 58). -/
def quality_score (b : ViralScoreBreakdown) : ℚ :=
  clamp (b.viral_score * (5/2)) 0 10

/-- The classification zones of lines 59–64. -/
inductive Zone where
  | high
  | borderline
  | low
deriving DecidableEq, Repr

/-- Lines 59–64: `HIGH_QUALITY` at quality ≥ 7.0, `BORDERLINE` at
quality ≥ 6.2, `LOW` otherwise. -/
def zone_of (q : ℚ) : Zone :=
  if q ≥ 7 then Zone.high
  else if q ≥ 31/5 then Zone.borderline
  else Zone.low

/-- Lines 67–72: the indices of the top `max(1, int(n · 0.30))` items of the
batch by raw `viral_score` (stable descending sort of `(score, index)`
pairs keyed on the score). -/
def top_indices (items : List (Video × ViralScoreBreakdown)) : List ℕ :=
  let all_viral := items.enum.map (fun p => (p.2.2.viral_score, p.1))
  let sorted := sortDesc (fun x => x.1) all_viral
  let top_count := max 1 (Int.toNat (Rat.floor ((items.length : ℚ) * (3/10))))
  (sorted.take top_count).map (fun x => x.2)

/-- Outcome of the per-item branch of the loop (lines 77–89): accept with a
reason, park in the borderline pool, or silently reject. -/
inductive GateStep where
  | accept (r : DecisionReason)
  | toPool
  | reject
deriving DecidableEq, Repr

/-- The body of the classification loop (lines 77–89) for the item at
position `i`, reading the zone computed in the classification stage
(lines 56–65). -/
def gate_step (topIdx : List ℕ) (i : ℕ) (v : Video) (zone : Zone) : GateStep :=
  match zone with
  | Zone.high => GateStep.accept DecisionReason.accepted_high_quality
  | Zone.borderline =>
    if i ∈ topIdx then GateStep.accept DecisionReason.accepted_borderline_high_viral
    else if gate_engagement_rate v > 2/25 then
      GateStep.accept DecisionReason.accepted_borderline_engagement
    else GateStep.toPool
  | Zone.low => GateStep.reject

/-- The `accepted` list the loop builds (in input order). -/
def gate_accepted (items : List (Video × ViralScoreBreakdown)) : List GateResult :=
  items.enum.filterMap (fun p =>
    match gate_step (top_indices items) p.1 p.2.1 (zone_of (quality_score p.2.2)) with
    | GateStep.accept r => some (GateResult.mk p.2.1 p.2.2 r)
    | _ => none)

/-- The `borderline_pool` list the loop builds (in input order). -/
def borderline_pool (items : List (Video × ViralScoreBreakdown)) :
    List (Video × ViralScoreBreakdown) :=
  items.enum.filterMap (fun p =>
    match gate_step (top_indices items) p.1 p.2.1 (zone_of (quality_score p.2.2)) with
    | GateStep.toPool => some p.2
    | _ => none)

/-- Function `apply_quality_gate` (`quality_gate.py` lines 45–108): classify, accept,
then fill from the viral-score-sorted borderline pool while fewer than
`min_results = 15` are accepted and the pool is non-empty. -/
def apply_quality_gate (items : List (Video × ViralScoreBreakdown)) :
    List GateResult :=
  let accepted := gate_accepted items
  let pool := sortDesc (fun x => x.2.viral_score) (borderline_pool items)
  if accepted.length < 15 ∧ pool ≠ [] then
    accepted ++ (pool.take (15 - accepted.length)).map
      (fun x => GateResult.mk x.1 x.2 DecisionReason.fallback_fill)
  else accepted

/-- Membership in the loop's `accepted` list from a step verdict. -/
theorem mem_gate_accepted {items : List (Video × ViralScoreBreakdown)}
    {i : ℕ} {v : Video} {b : ViralScoreBreakdown} {r : DecisionReason}
    (henum : (i, (v, b)) ∈ items.enum)
    (hstep : gate_step (top_indices items) i v (zone_of (quality_score b)) =
      GateStep.accept r) :
    GateResult.mk v b r ∈ gate_accepted items := by
  rw [gate_accepted]
  exact List.mem_filterMap.mpr ⟨(i, (v, b)), henum, by simp [hstep]⟩

/-- Membership in the loop's `borderline_pool` list from a step verdict. -/
theorem mem_borderline_pool {items : List (Video × ViralScoreBreakdown)}
    {i : ℕ} {v : Video} {b : ViralScoreBreakdown}
    (henum : (i, (v, b)) ∈ items.enum)
    (hstep : gate_step (top_indices items) i v (zone_of (quality_score b)) =
      GateStep.toPool) :
    (v, b) ∈ borderline_pool items := by
  rw [borderline_pool]
  exact List.mem_filterMap.mpr ⟨(i, (v, b)), henum, by simp [hstep]⟩

/-- Everything the loop accepted survives the fallback-fill step. -/
theorem gate_accepted_subset {items : List (Video × ViralScoreBreakdown)}
    {g : GateResult} (hg : g ∈ gate_accepted items) :
    g ∈ apply_quality_gate items := by
  rw [apply_quality_gate]
  split
  · exact List.mem_append_left _ hg
  · exact hg

/-- The loop rejects silently exactly in the LOW zone. -/
theorem gate_step_eq_reject_iff {topIdx : List ℕ} {i : ℕ} {v : Video}
    {z : Zone} :
    gate_step topIdx i v z = GateStep.reject ↔ z = Zone.low := by
  cases z with
  | high => simp [gate_step]
  | borderline =>
    rw [gate_step]
    split
    · simp
    · split
      · simp
      · simp
  | low => simp [gate_step]

/-- A borderline-or-better quality score is never in the LOW zone. -/
theorem zone_of_ne_low {q : ℚ} (hq : 31/5 ≤ q) : zone_of q ≠ Zone.low := by
  rw [zone_of]
  by_cases h7 : q ≥ 7
  · rw [if_pos h7]
    simp
  · rw [if_neg h7, if_pos hq]
    simp

/-- A borderline-or-better quality score never yields a silent reject. -/
theorem gate_step_ne_reject {topIdx : List ℕ} {i : ℕ} {v : Video}
    {b : ViralScoreBreakdown} (hq : 31/5 ≤ quality_score b) :
    gate_step topIdx i v (zone_of (quality_score b)) ≠ GateStep.reject := by
  intro hcontra
  exact absurd (gate_step_eq_reject_iff.mp hcontra) (zone_of_ne_low hq)

/-- C2 as amended: the gate's output is non-empty whenever some input item
reaches the borderline threshold (`quality_score ≥ 6.2`). -/
theorem apply_quality_gate_nonempty (items : List (Video × ViralScoreBreakdown))
    (h : ∃ p ∈ items, 31/5 ≤ quality_score p.2) :
    apply_quality_gate items ≠ [] := by
  obtain ⟨p, hp, hq⟩ := h
  obtain ⟨i, hgi⟩ := List.mem_iff_getElem?.mp hp
  have henum : (i, (p.1, p.2)) ∈ items.enum :=
    List.mk_mem_enum_iff_getElem?.mpr hgi
  cases hstep : gate_step (top_indices items) i p.1 (zone_of (quality_score p.2)) with
  | accept r =>
    exact List.ne_nil_of_mem (gate_accepted_subset (mem_gate_accepted henum hstep))
  | toPool =>
    have hpool : (p.1, p.2) ∈ borderline_pool items := mem_borderline_pool henum hstep
    have hpos : 0 < (borderline_pool items).length :=
      List.length_pos.mpr (List.ne_nil_of_mem hpool)
    have hslen : (sortDesc (fun x => x.2.viral_score) (borderline_pool items)).length =
        (borderline_pool items).length := length_sortDesc _ _
    have hpoolne : sortDesc (fun x => x.2.viral_score) (borderline_pool items) ≠ [] := by
      intro hnil
      rw [hnil] at hslen
      simp only [List.length_nil] at hslen
      omega
    rw [apply_quality_gate]
    by_cases hacc : gate_accepted items = []
    · rw [if_pos ⟨by rw [hacc]; simp, hpoolne⟩]
      intro hcontra
      have h2 := (List.append_eq_nil.mp hcontra).2
      have hlen2 := congrArg List.length h2
      rw [List.length_map, List.length_take, hslen, hacc] at hlen2
      simp only [List.length_nil, Nat.sub_zero] at hlen2
      omega
    · split
      · intro hcontra
        exact hacc (List.append_eq_nil.mp hcontra).1
      · exact hacc
  | reject => exact absurd hstep (gate_step_ne_reject hq)

/-- A video/breakdown pair whose score is far below the borderline zone. -/
def lowV : Video := { platform := "tiktok", video_id := "low" }

def lowB : ViralScoreBreakdown := { viral_score := 0 }

unseal Rat.mul Rat.inv Rat.add Rat.sub in
/-- C2 counterexample: on the non-empty input `[(lowV, lowB)]` (quality
score 0, LOW zone) the gate returns the empty list, so an empty result does
not require an empty input. -/
theorem apply_quality_gate_empty_counterexample :
    apply_quality_gate [(lowV, lowB)] = [] ∧
    ([(lowV, lowB)] : List (Video × ViralScoreBreakdown)) ≠ [] := by
  decide

/-- A borderline pair (quality score 6.5) for the C2 witness. -/
def borderlineOnlyV : Video := { platform := "tiktok", video_id := "bw" }

def borderlineOnlyB : ViralScoreBreakdown := { viral_score := 13/5 }

unseal Rat.mul Rat.inv Rat.add Rat.sub in
/-- Witness for the amended C2: one borderline item suffices for a
non-empty gate output. -/
theorem apply_quality_gate_nonempty_witness :
    apply_quality_gate [(borderlineOnlyV, borderlineOnlyB)] ≠ [] :=
  apply_quality_gate_nonempty [(borderlineOnlyV, borderlineOnlyB)]
    ⟨(borderlineOnlyV, borderlineOnlyB), by decide, by decide⟩

/-- An `accept accepted_borderline_engagement` verdict always means the
gate's (unweighted) engagement rate cleared the 0.08 bar. -/
theorem gate_step_engagement_inversion {topIdx : List ℕ} {i : ℕ} {v : Video}
    {z : Zone}
    (h : gate_step topIdx i v z =
      GateStep.accept DecisionReason.accepted_borderline_engagement) :
    gate_engagement_rate v > 2/25 := by
  cases z with
  | high =>
    rw [gate_step] at h
    simp at h
  | borderline =>
    rw [gate_step] at h
    split at h
    · simp at h
    · split at h
      · next heng => exact heng
      · simp at h
  | low =>
    rw [gate_step] at h
    simp at h

/-- Any gate output carrying the reason `accepted_borderline_engagement`
comes from the classification loop, not from fallback fill. -/
theorem gate_engagement_mem_accepted
    {items : List (Video × ViralScoreBreakdown)} {v : Video}
    {b : ViralScoreBreakdown}
    (hmem : GateResult.mk v b DecisionReason.accepted_borderline_engagement ∈
      apply_quality_gate items) :
    GateResult.mk v b DecisionReason.accepted_borderline_engagement ∈
      gate_accepted items := by
  rw [apply_quality_gate] at hmem
  split at hmem
  · rcases List.mem_append.mp hmem with h | h
    · exact h
    · exfalso
      obtain ⟨x, _, hgx⟩ := List.mem_map.mp h
      simp at hgx
  · exact hmem

/-- C4 as amended: a BORDERLINE item outside the top 30% is accepted with
reason `accepted_borderline_engagement` exactly when the gate's unweighted
engagement rate `(likes + comments + shares) / max(views, 1)` exceeds
0.08. -/
theorem gate_borderline_engagement_iff
    (items : List (Video × ViralScoreBreakdown)) (i : ℕ) (v : Video)
    (b : ViralScoreBreakdown) (hgi : items[i]? = some (v, b))
    (hzone : zone_of (quality_score b) = Zone.borderline)
    (htop : i ∉ top_indices items) :
    (GateResult.mk v b DecisionReason.accepted_borderline_engagement ∈
      apply_quality_gate items) ↔ gate_engagement_rate v > 2/25 := by
  constructor
  · intro hmem
    obtain ⟨p, _, hfp⟩ := List.mem_filterMap.mp (gate_engagement_mem_accepted hmem)
    cases hgs : gate_step (top_indices items) p.1 p.2.1
        (zone_of (quality_score p.2.2)) with
    | accept r =>
      rw [hgs] at hfp
      simp only [Option.some.injEq] at hfp
      have hv : p.2.1 = v := congrArg GateResult.video hfp
      have hr : r = DecisionReason.accepted_borderline_engagement :=
        congrArg GateResult.quality_decision_reason hfp
      rw [hr] at hgs
      have := gate_step_engagement_inversion hgs
      rwa [hv] at this
    | toPool =>
      rw [hgs] at hfp
      simp at hfp
    | reject =>
      rw [hgs] at hfp
      simp at hfp
  · intro heng
    have henum : (i, (v, b)) ∈ items.enum :=
      List.mk_mem_enum_iff_getElem?.mpr hgi
    have hstep : gate_step (top_indices items) i v (zone_of (quality_score b)) =
        GateStep.accept DecisionReason.accepted_borderline_engagement := by
      rw [hzone, gate_step]
      rw [if_neg htop, if_pos heng]
    exact gate_accepted_subset (mem_gate_accepted henum hstep)

/-- High-quality companion item for the C4 examples (quality score 7.5). -/
def strongV : Video := { platform := "tiktok", video_id := "X", views := 1000, likes := 100 }

def strongB : ViralScoreBreakdown := { viral_score := 3 }

/-- Borderline breakdown (quality score 6.5) for the C4 examples. -/
def borderB : ViralScoreBreakdown := { viral_score := 13/5 }

/-- Weighted engagement `(0 + 2·3 + 3·1)/100 = 0.09 > 0.08` but unweighted
engagement `(0 + 3 + 1)/100 = 0.04 ≤ 0.08`. -/
def engWeightedOnlyV : Video :=
  { platform := "tiktok", video_id := "Y", views := 100, likes := 0,
    comments := 3, shares := 1 }

unseal Rat.mul Rat.inv Rat.add Rat.sub in
/-- C4 counterexample: `engWeightedOnlyV` is BORDERLINE, outside the top
30%, and its weighted engagement rate (the formula the claim names) exceeds
0.08 — yet the gate parks it and it re-enters only as `fallback_fill`, not
as `accepted_borderline_engagement`, because the gate uses the unweighted
rate. -/
theorem gate_borderline_engagement_counterexample :
    ViralFilters.engagement_rate engWeightedOnlyV > 2/25 ∧
    apply_quality_gate [(strongV, strongB), (engWeightedOnlyV, borderB)] =
      [GateResult.mk strongV strongB DecisionReason.accepted_high_quality,
        GateResult.mk engWeightedOnlyV borderB DecisionReason.fallback_fill] := by
  refine ⟨by decide, by decide⟩

/-- Unweighted engagement `(9 + 0 + 0)/100 = 0.09 > 0.08`, for the C4
witness. -/
def engUnweightedV : Video :=
  { platform := "tiktok", video_id := "E", views := 100, likes := 9 }

unseal Rat.mul Rat.inv Rat.add Rat.sub in
/-- Witness for the amended C4: a borderline, non-top item whose unweighted
engagement rate exceeds 0.08 is accepted with reason
`accepted_borderline_engagement`. -/
theorem gate_borderline_engagement_iff_witness :
    GateResult.mk engUnweightedV borderB
        DecisionReason.accepted_borderline_engagement ∈
      apply_quality_gate [(strongV, strongB), (engUnweightedV, borderB)] :=
  (gate_borderline_engagement_iff
      [(strongV, strongB), (engUnweightedV, borderB)] 1 engUnweightedV borderB
      (by decide) (by decide) (by decide)).mpr (by decide)

end QualityGate

/-! Worker persistence mapping and source attribution
(`app/worker.py`). -/

namespace Worker

open ViralPipeline

/-- Python's `int()` on a float/rational: truncation toward zero. -/
def python_int (q : ℚ) : ℤ := if 0 ≤ q then Rat.floor q else Rat.ceil q

/-- Mapping of `worker.py` lines 127–130:
`virality_score = min(10, max(1, int(viral_score * 2.5)))`. -/
def virality_score_of (viral_score : ℚ) : ℤ :=
  min 10 (max 1 (python_int (viral_score * (5/2))))

/-- Flag of `worker.py` line 131: `is_viral = viral_score >= 1.5`. -/
def is_viral_of (viral_score : ℚ) : Bool := decide (viral_score ≥ 3/2)

/-- Modelled from the spec for comparison (refinement check):
`clamp(round(viral_score · 2.5), 1, 10)` with rounding to nearest
(`round` is Mathlib's round-half-up). -/
def spec_virality_score (viral_score : ℚ) : ℤ :=
  min 10 (max 1 (round (viral_score * (5/2))))

/-- A gate-reachable score where truncation and rounding differ:
`viral_score = 69/25 = 2.76`, quality score 6.9 (borderline, accepted),
`69/25 · 2.5 = 6.9`. -/
def truncV : Video := { platform := "tiktok", video_id := "trunc" }

def truncB : ViralScoreBreakdown := { viral_score := 69/25 }

unseal Rat.mul Rat.inv Rat.add Rat.sub in
/-- C3 counterexample: the pair `(truncV, truncB)` is accepted by the gate,
and for its score the worker stores `int(6.9) = 6` while the claimed
`clamp(round(6.9), 1, 10)` is 7. -/
theorem virality_score_truncation_counterexample :
    QualityGate.apply_quality_gate [(truncV, truncB)] =
      [QualityGate.GateResult.mk truncV truncB
        QualityGate.DecisionReason.accepted_borderline_high_viral] ∧
    virality_score_of (69/25) = 6 ∧
    spec_virality_score (69/25) = 7 := by
  refine ⟨by decide, by decide, by decide⟩

/-- C3 as amended: for every gate-accepted result the stored
`virality_score = min(10, max(1, int(viral_score · 2.5)))` (truncation, not
rounding) lies in [1, 10], and `is_viral` holds iff `viral_score ≥ 1.5`. -/
theorem virality_score_of_gate_accepted
    (items : List (Video × ViralScoreBreakdown)) (g : QualityGate.GateResult)
    (hg : g ∈ QualityGate.apply_quality_gate items) :
    1 ≤ virality_score_of g.breakdown.viral_score ∧
    virality_score_of g.breakdown.viral_score ≤ 10 ∧
    (is_viral_of g.breakdown.viral_score = true ↔
      3/2 ≤ g.breakdown.viral_score) := by
  refine ⟨?_, min_le_left _ _, ?_⟩
  · rw [virality_score_of]
    exact le_min (by norm_num) (le_max_left _ _)
  · rw [is_viral_of]
    exact decide_eq_true_iff

unseal Rat.mul Rat.inv Rat.add Rat.sub in
/-- Witness for the amended C3 at the concrete accepted result of the
counterexample batch. -/
theorem virality_score_of_gate_accepted_witness :
    1 ≤ virality_score_of
      (QualityGate.GateResult.mk truncV truncB
        QualityGate.DecisionReason.accepted_borderline_high_viral).breakdown.viral_score ∧
    virality_score_of
      (QualityGate.GateResult.mk truncV truncB
        QualityGate.DecisionReason.accepted_borderline_high_viral).breakdown.viral_score ≤ 10 ∧
    (is_viral_of
      (QualityGate.GateResult.mk truncV truncB
        QualityGate.DecisionReason.accepted_borderline_high_viral).breakdown.viral_score = true ↔
      3/2 ≤ (QualityGate.GateResult.mk truncV truncB
        QualityGate.DecisionReason.accepted_borderline_high_viral).breakdown.viral_score) :=
  virality_score_of_gate_accepted [(truncV, truncB)] _ (by decide)

/-! Source attribution (`worker.py` lines 63–87 and 122).

The worker loads sources ordered by `created_at` descending, parses each
into a collector identifier, groups them by collector platform
(`defaultdict` preserves first-encounter key order and appends in input
order), fetches once per platform group, and attributes every fetched video
to `items[0][0]` — the first source of its group.  URL parsing
(`parse_source_identifier`, a regex) is not modelled: sources arrive here
already paired with their parsed identifier. -/

/-- The `sources` rows the worker reads: `id`, `platform`, `url`,
`created_at` (a UTC timestamp). -/
structure Source where
  id : String
  platform : String
  url : String := ""
  created_at : ℤ := 0
deriving Repr, DecidableEq

/-- Function `platform_to_collector` (`ingestion_helpers.py` lines 35–38).  The
worker lowercases the stored platform string before parsing and grouping
(`worker.py` line 71); `Source.platform` here stands for that lowercased
string. -/
def platform_to_collector (platform : String) : String :=
  if platform = "tiktok" then "tiktok"
  else if platform = "reels" then "reels"
  else if platform = "instagram" then "reels"
  else if platform = "shorts" then "youtube"
  else platform

/-- The grouping key of `worker.py` lines 70–76. -/
def collector_key (s : Source) : String :=
  platform_to_collector s.platform

/-- Appending to a `defaultdict(list)` entry: extend the first group with
this key, or open a new group at the end. -/
def addToGroup : List (String × List (Source × String)) → String →
    (Source × String) → List (String × List (Source × String))
  | [], key, si => [(key, [si])]
  | g :: gs, key, si =>
    if g.1 = key then (g.1, g.2 ++ [si]) :: gs
    else g :: addToGroup gs key si

/-- Grouping `by_platform` (`worker.py` lines 69–76): insertion-ordered grouping of
the parsed sources by collector platform. -/
def group_by_platform (sources : List (Source × String)) :
    List (String × List (Source × String)) :=
  sources.foldl (fun acc si => addToGroup acc (collector_key si.1) si) []

/-- Dictionary lookup in the grouped structure. -/
def groupItems (gs : List (String × List (Source × String))) (key : String) :
    List (Source × String) :=
  match gs.find? (fun g => g.1 == key) with
  | none => []
  | some g => g.2

/-- Fetch loop of `worker.py` lines 81–87: one fetch per platform group over the group's
channel list, attributing every returned video to `items[0][0]`, the first
source of the group.  (The loop never produces an empty group; that case is
unreachable.) -/
def collect_all_videos (by_platform : List (String × List (Source × String)))
    (fetch : String → List String → List Video) : List (Source × Video) :=
  by_platform.foldl (fun acc g =>
    match g.2 with
    | [] => acc
    | first :: _ =>
      acc ++ (fetch g.1 (g.2.map (fun si => si.2))).map
        (fun v => (first.1, v))) []

theorem groupItems_nil (key : String) : groupItems [] key = [] := rfl

theorem groupItems_cons (g : String × List (Source × String))
    (gs : List (String × List (Source × String))) (key : String) :
    groupItems (g :: gs) key =
      if g.1 = key then g.2 else groupItems gs key := by
  by_cases h : g.1 = key
  · rw [if_pos h, groupItems, List.find?_cons_of_pos _ (by simpa using h)]
  · rw [if_neg h, groupItems, List.find?_cons_of_neg _ (by simpa using h),
      groupItems]

theorem groupItems_addToGroup
    (acc : List (String × List (Source × String))) (k : String)
    (si : Source × String) (key : String) :
    groupItems (addToGroup acc k si) key =
      if key = k then groupItems acc key ++ [si] else groupItems acc key := by
  induction acc with
  | nil =>
    rw [addToGroup, groupItems_cons, groupItems_nil]
    by_cases h : key = k
    · rw [if_pos h, if_pos h.symm]
      simp
    · rw [if_neg h, if_neg (fun hc => h hc.symm)]
  | cons g gs ih =>
    rw [addToGroup]
    by_cases hg : g.1 = k
    · rw [if_pos hg]
      by_cases hk : key = k
      · have hgkey : g.1 = key := hg.trans hk.symm
        simp [groupItems_cons, hgkey, hk]
      · have hgkey : ¬ g.1 = key := fun hc => hk (hc.symm.trans hg)
        simp [groupItems_cons, hgkey, hk]
    · rw [if_neg hg]
      by_cases hgkey : g.1 = key
      · have hk : ¬ key = k := fun hc => hg (hgkey.trans hc)
        simp [groupItems_cons, hgkey, hk]
      · simp [groupItems_cons, hgkey, ih]

theorem groupItems_foldl (sources : List (Source × String)) :
    ∀ (acc : List (String × List (Source × String))) (key : String),
    groupItems
        (sources.foldl (fun a si => addToGroup a (collector_key si.1) si) acc)
        key =
      groupItems acc key ++
        sources.filter (fun si => collector_key si.1 == key) := by
  induction sources with
  | nil => intro acc key; simp
  | cons s ss ih =>
    intro acc key
    rw [List.foldl_cons, ih, groupItems_addToGroup, List.filter_cons]
    by_cases h : key = collector_key s.1
    · rw [if_pos h]
      have hbeq : (collector_key s.1 == key) = true := by simp [h]
      rw [hbeq]
      simp
    · rw [if_neg h]
      have hbeq : (collector_key s.1 == key) = false := by
        simp only [beq_eq_false_iff_ne, ne_eq]
        exact fun hc => h hc.symm
      rw [hbeq]
      simp

/-- The items grouped under `key` are exactly the sources whose collector
platform is `key`, in their original order. -/
theorem groupItems_group_by_platform (sources : List (Source × String))
    (key : String) :
    groupItems (group_by_platform sources) key =
      sources.filter (fun si => collector_key si.1 == key) := by
  rw [group_by_platform, groupItems_foldl]
  rw [groupItems_nil, List.nil_append]

theorem mem_keys_addToGroup {gs : List (String × List (Source × String))}
    {k : String} {si : Source × String} {x : String}
    (h : x ∈ (addToGroup gs k si).map Prod.fst) :
    x ∈ gs.map Prod.fst ∨ x = k := by
  induction gs with
  | nil =>
    rw [addToGroup] at h
    simp at h
    exact Or.inr h
  | cons g gs ih =>
    rw [addToGroup] at h
    by_cases hg : g.1 = k
    · rw [if_pos hg] at h
      simp only [List.map_cons, List.mem_cons] at h ⊢
      exact Or.inl h
    · rw [if_neg hg] at h
      simp only [List.map_cons, List.mem_cons] at h ⊢
      rcases h with h | h
      · exact Or.inl (Or.inl h)
      · rcases ih h with h' | h'
        · exact Or.inl (Or.inr h')
        · exact Or.inr h'

theorem nodup_keys_addToGroup {gs : List (String × List (Source × String))}
    {k : String} {si : Source × String}
    (h : (gs.map Prod.fst).Nodup) :
    ((addToGroup gs k si).map Prod.fst).Nodup := by
  induction gs with
  | nil => simp [addToGroup]
  | cons g gs ih =>
    rw [addToGroup]
    by_cases hg : g.1 = k
    · rw [if_pos hg]
      simpa using h
    · rw [if_neg hg]
      rw [List.map_cons, List.nodup_cons] at h ⊢
      refine ⟨?_, ih h.2⟩
      intro hc
      rcases mem_keys_addToGroup hc with h' | h'
      · exact h.1 h'
      · exact hg h'

theorem nodup_keys_group_by_platform (sources : List (Source × String)) :
    ((group_by_platform sources).map Prod.fst).Nodup := by
  rw [group_by_platform]
  suffices haux : ∀ (acc : List (String × List (Source × String))),
      (acc.map Prod.fst).Nodup →
      ((sources.foldl (fun a si => addToGroup a (collector_key si.1) si)
        acc).map Prod.fst).Nodup by
    exact haux [] (by simp)
  induction sources with
  | nil => intro acc h; simpa using h
  | cons s ss ih =>
    intro acc h
    rw [List.foldl_cons]
    exact ih _ (nodup_keys_addToGroup h)

theorem groupItems_of_mem {gs : List (String × List (Source × String))}
    {key : String} {items : List (Source × String)}
    (hnd : (gs.map Prod.fst).Nodup) (hmem : (key, items) ∈ gs) :
    groupItems gs key = items := by
  induction gs with
  | nil => exact absurd hmem (List.not_mem_nil _)
  | cons g gs ih =>
    rw [List.map_cons, List.nodup_cons] at hnd
    rcases List.mem_cons.mp hmem with h | h
    · rw [← h, groupItems_cons]
      simp
    · have hne : g.1 ≠ key := by
        intro hc
        apply hnd.1
        rw [hc]
        have := List.mem_map_of_mem Prod.fst h
        simpa using this
      rw [groupItems_cons, if_neg hne]
      exact ih hnd.2 h

/-- Inversion for `collect_all_videos`: every produced pair comes from some
group, is attributed to that group's first source, and its video came from
that group's fetch. -/
theorem mem_collect_all_videos
    {bp : List (String × List (Source × String))}
    {fetch : String → List String → List Video} {sv : Source × Video}
    (h : sv ∈ collect_all_videos bp fetch) :
    ∃ g ∈ bp, ∃ first rest, g.2 = first :: rest ∧ sv.1 = first.1 ∧
      sv.2 ∈ fetch g.1 (g.2.map (fun si => si.2)) := by
  rw [collect_all_videos] at h
  suffices haux : ∀ (bp' : List (String × List (Source × String)))
      (acc : List (Source × Video)),
      sv ∈ bp'.foldl (fun acc g => match g.2 with
        | [] => acc
        | first :: _ =>
          acc ++ (fetch g.1 (g.2.map (fun si => si.2))).map
            (fun v => (first.1, v))) acc →
      sv ∈ acc ∨ ∃ g ∈ bp', ∃ first rest, g.2 = first :: rest ∧
        sv.1 = first.1 ∧ sv.2 ∈ fetch g.1 (g.2.map (fun si => si.2)) by
    rcases haux bp [] h with hc | hc
    · exact absurd hc (List.not_mem_nil _)
    · exact hc
  intro bp'
  induction bp' with
  | nil => intro acc hacc; exact Or.inl hacc
  | cons g gs ih =>
    intro acc hacc
    rw [List.foldl_cons] at hacc
    rcases ih _ hacc with hc | hc
    · cases hg2 : g.2 with
      | nil =>
        rw [hg2] at hc
        exact Or.inl hc
      | cons first rest =>
        rw [hg2] at hc
        simp only [] at hc
        rcases List.mem_append.mp hc with hc' | hc'
        · exact Or.inl hc'
        · obtain ⟨v, hv, hsv⟩ := List.mem_map.mp hc'
          refine Or.inr ⟨g, List.mem_cons_self g gs, first, rest, hg2, ?_, ?_⟩
          · rw [← hsv]
          · rw [← hsv, hg2]
            simpa using hv
    · obtain ⟨g', hg', rest⟩ := hc
      exact Or.inr ⟨g', List.mem_cons_of_mem g hg', rest⟩

/-- C9: every pair the worker's fetch loop produces is attributed to the
first source of its platform group — the first (hence, for a
`created_at`-descending source list, the most recently created) source
whose collector platform matches the group key; the video itself came from
fetching the whole group's channel list, so the attributed source need not
be the one the video was actually fetched from. -/
theorem worker_attributes_first_source
    (sources : List (Source × String))
    (fetch : String → List String → List Video)
    (hsorted : sources.Pairwise (fun a b => b.1.created_at ≤ a.1.created_at))
    (sv : Source × Video)
    (h : sv ∈ collect_all_videos (group_by_platform sources) fetch) :
    ∃ key ident rest,
      sources.filter (fun si => collector_key si.1 == key) =
        (sv.1, ident) :: rest ∧
      sv.2 ∈ fetch key
        ((sources.filter (fun si => collector_key si.1 == key)).map
          (fun si => si.2)) ∧
      ∀ s ∈ sources, collector_key s.1 = key →
        s.1.created_at ≤ sv.1.created_at := by
  obtain ⟨g, hg, first, rest, hg2, hsv1, hsv2⟩ := mem_collect_all_videos h
  have hitems : groupItems (group_by_platform sources) g.1 = g.2 :=
    groupItems_of_mem (nodup_keys_group_by_platform sources) hg
  have hfilter : sources.filter (fun si => collector_key si.1 == g.1) = g.2 := by
    rw [← groupItems_group_by_platform]
    exact hitems
  refine ⟨g.1, first.2, rest, ?_, ?_, ?_⟩
  · rw [hfilter, hg2, hsv1]
  · rw [hfilter]
    exact hsv2
  · intro s hs hkey
    have hsf : s ∈ sources.filter (fun si => collector_key si.1 == g.1) :=
      List.mem_filter.mpr ⟨hs, by simp [hkey]⟩
    rw [hfilter, hg2] at hsf
    have hpw : (sources.filter (fun si => collector_key si.1 == g.1)).Pairwise
        (fun a b => b.1.created_at ≤ a.1.created_at) :=
      hsorted.sublist (List.filter_sublist sources)
    rw [hfilter, hg2] at hpw
    rcases List.mem_cons.mp hsf with hfirst | hrest
    · rw [hsv1, hfirst]
    · rw [hsv1]
      exact (List.pairwise_cons.mp hpw).1 s hrest

/-- Two sources for the same collector platform, ordered by `created_at`
descending, for the C9 witness. -/
def srcNew : Source := { id := "s1", platform := "reels", created_at := 5 }

def srcOld : Source := { id := "s2", platform := "instagram", created_at := 3 }

def srcPairs : List (Source × String) := [(srcNew, "a"), (srcOld, "b")]

def fetchedVid : Video := { platform := "reels", video_id := "r1" }

def constFetch : String → List String → List Video := fun _ _ => [fetchedVid]

/-- Witness for C9: the video fetched for the reels group (to which both
sources belong) is attributed to `srcNew`, the group's first source. -/
theorem worker_attributes_first_source_witness :
    ∃ key ident rest,
      srcPairs.filter (fun si => collector_key si.1 == key) =
        (((srcNew, fetchedVid) : Source × Video).1, ident) :: rest ∧
      ((srcNew, fetchedVid) : Source × Video).2 ∈ constFetch key
        ((srcPairs.filter (fun si => collector_key si.1 == key)).map
          (fun si => si.2)) ∧
      ∀ s ∈ srcPairs, collector_key s.1 = key →
        s.1.created_at ≤ ((srcNew, fetchedVid) : Source × Video).1.created_at :=
  worker_attributes_first_source srcPairs constFetch (by decide)
    (srcNew, fetchedVid) (by decide)

end Worker

end Trand
